import Mathlib

/-!
# TransitX `server.js`: worker supervision, status cache and shutdown

A shallow embedding of the crowd-analyzer supervision code of `server.js`
(`currentCrowdData`, `pythonProcess`, `startPythonProcess`, `stopPythonProcess`,
the stdout `data` / `close` / `error` handlers and `gracefulShutdown`).

Modelling conventions.

* JavaScript values that can be stored in `currentCrowdData` are the values
  `JSON.parse` can return, plus strings written by the handlers: `JVal`.
* `undefined` (the result of reading a missing property) is `none : Option JVal`.
* An object is its list of own properties in definition order; a property
  read returns the value of the last definition of the key, a property write
  replaces the value where the key is already defined and appends otherwise.
  The special enumeration position of integer-like keys is not modelled: it
  changes no key/value association.
* `JSON.parse` is a runtime library function, not code of the repository: the
  handlers take it as a parameter `parse : String → Option JVal`
  (`none` when it throws).
* `spawn`, `kill`, `server.close`, `db.end`, `setTimeout` and `process.exit`
  are calls into the runtime: their effect is recorded in explicit state, and
  the callbacks the runtime later invokes are events of a transition system.
-/

namespace TransitX

/-! ## JavaScript values -/

/-- A JavaScript number as produced by `JSON.parse`: a finite value (every
finite double is a rational; `-0` is identified with `0`) or an infinity
(decimal literals that overflow). `NaN` never arises. -/
inductive JsNumber where
  | finite (q : ℚ)
  | infinite (negative : Bool)
  deriving DecidableEq

/-- The values `JSON.parse` can return. -/
inductive JVal where
  | null
  | bool (b : Bool)
  | num (n : JsNumber)
  | str (s : String)
  | arr (items : List JVal)
  | obj (props : List (String × JVal))

/-- The own properties of an object, in definition order. -/
abbrev Record := List (String × JVal)

/-- Truthiness of a number: everything except zero. -/
def JsNumber.truthy : JsNumber → Bool
  | .finite q => decide (q ≠ 0)
  | .infinite _ => true

/-- ToBoolean on a value: `null`, `false`, `0` and `""` are falsy. -/
def JVal.truthy : JVal → Bool
  | .null => false
  | .bool b => b
  | .num n => n.truthy
  | .str s => decide (s ≠ "")
  | .arr _ => true
  | .obj _ => true

/-- ToBoolean on a value or `undefined`. -/
def truthyOpt : Option JVal → Bool
  | none => false
  | some v => v.truthy

/-- Read of property `k` from a property list: the last definition wins. -/
def lookupProp (k : String) : Record → Option JVal
  | [] => none
  | p :: rest => (lookupProp k rest).or (if p.1 = k then some p.2 else none)

/-- Whether the property list defines key `k`. -/
def hasProp (k : String) (r : Record) : Bool :=
  r.any (fun p => decide (p.1 = k))

/-- Write of property `k`: `obj[k] = v` (also one entry of a spread or of an
object literal). -/
def setProp (k : String) (v : JVal) (r : Record) : Record :=
  if hasProp k r then r.map (fun p => if p.1 = k then (k, v) else p)
  else r ++ [(k, v)]

/-- The own enumerable properties copied by the spread `...v` into an object
literal: the properties of an object, the indexed elements of an array, the
indexed characters of a string, nothing for the other primitives. -/
def ownProps : JVal → Record
  | .obj props => props
  | .arr items => items.enum.map (fun p => (toString p.1, p.2))
  | .str s => s.data.enum.map (fun p => (toString p.1, JVal.str (String.singleton p.2)))
  | _ => []

/-- Object spread onto an existing property list: `{ ...r, ...v }`. -/
def spreadOnto (r : Record) (v : JVal) : Record :=
  (ownProps v).foldl (fun acc p => setProp p.1 p.2 acc) r

/-- Property read `v.k`: throws (`Except.error`) on `null`, is `undefined`
on the primitives and on arrays for a non-index, non-`length` key, and the
own property on an object. -/
def getMember (v : JVal) (k : String) : Except String (Option JVal) :=
  match v with
  | .null => .error "TypeError: Cannot read properties of null"
  | .obj props => .ok (lookupProp k props)
  | _ => .ok none

/-! ## Text processing of a stdout chunk -/

/-- The code points removed by `String.prototype.trim`: WhiteSpace
(TAB, VT, FF, ZWNBSP and the space separators) and LineTerminator
(LF, CR, LS, PS). -/
def isJsWhiteSpace (c : Char) : Bool :=
  let n := c.toNat
  n = 0x09 || n = 0x0A || n = 0x0B || n = 0x0C || n = 0x0D || n = 0x20 ||
  n = 0xA0 || n = 0x1680 || (0x2000 ≤ n && n ≤ 0x200A) || n = 0x2028 ||
  n = 0x2029 || n = 0x202F || n = 0x205F || n = 0x3000 || n = 0xFEFF

/-- The line feed, the separator of `split('\n')`. -/
def lineFeed : Char := Char.ofNat 10

/-- The characters of `s.trim()`. -/
def trimChars (cs : List Char) : List Char :=
  ((cs.dropWhile isJsWhiteSpace).reverse.dropWhile isJsWhiteSpace).reverse

/-- The method `s.trim()`. -/
def jsTrim (s : String) : String := ⟨trimChars s.data⟩

/-- The pieces of `split('\n')` on a character list: never empty, one more
piece than there are line feeds. -/
def splitChars : List Char → List (List Char)
  | [] => [[]]
  | c :: cs =>
    if c = lineFeed then [] :: splitChars cs
    else
      match splitChars cs with
      | [] => [[c]]
      | l :: ls => (c :: l) :: ls

/-- The method `s.split('\n')`. -/
def jsSplitLines (s : String) : List String :=
  (splitChars s.data).map String.mk

/-- The array `jsonStrings` of the stdout handler:
`rawData.split('\n').filter(s => s.trim() !== '')` with
`rawData = data.toString().trim()`. -/
def jsonStrings (data : String) : List String :=
  (jsSplitLines (jsTrim data)).filter (fun s => jsTrim s != "")

/-! ## The stdout `data` handler -/

/-- What the stdout handler writes to the console. -/
inductive ConsoleMsg where
  | receivedData (jsonData : JVal)
  | invalidData (jsonString : String)
  | parseError (rawData : String)

/-- The expression `jsonData && jsonData.density`. -/
def densityGuard (jsonData : JVal) : Except String (Option JVal) :=
  if jsonData.truthy then getMember jsonData "density" else .ok (some jsonData)

/-- The object literal `{ ...currentCrowdData, ...jsonData, status: "Running" }`. -/
def mergeRunning (cur : Record) (jsonData : JVal) : Record :=
  setProp "status" (.str "Running") (spreadOnto (spreadOnto [] (.obj cur)) jsonData)

/-- The body of the `try` block for one element of `jsonStrings`: the new
value of `currentCrowdData` and the console output, or the exception thrown. -/
def tryBlock (parse : String → Option JVal) (cur : Record) (jsonString : String) :
    Except String (Record × List ConsoleMsg) :=
  match parse jsonString with
  | none => .error "SyntaxError"
  | some jsonData =>
    match densityGuard jsonData with
    | .error e => .error e
    | .ok cond =>
      if truthyOpt cond then .ok (mergeRunning cur jsonData, [.receivedData jsonData])
      else .ok (cur, [.invalidData jsonString])

/-- One call of the `forEach` callback: the `try` block with its `catch`,
which only logs. -/
def forEachCallback (parse : String → Option JVal) (rawData : String)
    (st : Record × List ConsoleMsg) (jsonString : String) :
    Except String (Record × List ConsoleMsg) :=
  match tryBlock parse st.1 jsonString with
  | .ok (r, msgs) => .ok (r, st.2 ++ msgs)
  | .error _ => .ok (st.1, st.2 ++ [.parseError rawData])

/-- The stdout `data` handler run on one chunk from `currentCrowdData = cur`:
the new `currentCrowdData` and the console output, or the exception that
escapes the handler. -/
def onStdoutData (parse : String → Option JVal) (cur : Record) (data : String) :
    Except String (Record × List ConsoleMsg) :=
  (jsonStrings data).foldlM (forEachCallback parse (jsTrim data)) (cur, [])

/-- The handler run on a sequence of chunks, in delivery order. -/
def onStdoutChunks (parse : String → Option JVal) (cur : Record) (chunks : List String) :
    Except String Record :=
  chunks.foldlM (fun r data => (onStdoutData parse r data).map Prod.fst) cur

/-! ## The supervisor: `currentCrowdData`, `pythonProcess` and the worker events -/

/-- The initial value of `currentCrowdData`. -/
def initialCrowdData : Record :=
  [("density", .str "Unknown"), ("count", .num (.finite 0)), ("timestamp", .null),
   ("status", .str "Initializing")]

/-- What the runtime knows of one `ChildProcess` object returned by `spawn`:
whether `kill('SIGTERM')` was called on it, whether it has emitted `error`
(it could not be started, or could not be signalled), and whether it has
emitted `close`. -/
structure Worker where
  killRequested : Bool
  failed : Bool
  closed : Bool
  deriving DecidableEq

/-- The two module-level variables of the supervisor, and the `ChildProcess`
objects created so far in creation order; `pythonProcess` holds the index of
the object it refers to. -/
structure Supervisor where
  currentCrowdData : Record
  pythonProcess : Option Nat
  workers : List Worker

/-- The state at module load. -/
def Supervisor.initial : Supervisor :=
  { currentCrowdData := initialCrowdData, pythonProcess := none, workers := [] }

/-- What the call `spawn(pythonExecutable, [pythonScriptPath], {})` does:
return a new `ChildProcess`, or throw an error with the given `message`. -/
inductive SpawnOutcome where
  | returns
  | throws (message : String)

/-- Update of the runtime record of worker `w`. -/
def updateWorker (w : Nat) (f : Worker → Worker) : List Worker → List Worker
  | [] => []
  | x :: xs =>
    match w with
    | 0 => f x :: xs
    | n + 1 => x :: updateWorker n f xs

/-- The function `startPythonProcess()`; `outcome` is what `spawn` does if it
is reached. -/
def startPythonProcess (outcome : SpawnOutcome) (s : Supervisor) : Supervisor :=
  match s.pythonProcess with
  | some _ => s
  | none =>
    let starting := setProp "status" (.str "Starting") (spreadOnto [] (.obj s.currentCrowdData))
    match outcome with
    | .returns =>
      { currentCrowdData := starting
        pythonProcess := some s.workers.length
        workers := s.workers ++ [{ killRequested := false, failed := false, closed := false }] }
    | .throws message =>
      { currentCrowdData :=
          setProp "error" (.str message) (setProp "status" (.str "Spawn Error") starting)
        pythonProcess := none
        workers := s.workers }

/-- The function `stopPythonProcess()`. -/
def stopPythonProcess (s : Supervisor) : Supervisor :=
  match s.pythonProcess with
  | some w =>
    { currentCrowdData := setProp "status" (.str "Stopped") s.currentCrowdData
      pythonProcess := none
      workers := updateWorker w (fun x => { x with killRequested := true }) s.workers }
  | none => s

/-- The text of the template literal for the exit code: a number, or `null`
when the worker was ended by a signal. -/
def exitCodeText : Option Int → String
  | none => "null"
  | some code => toString code

/-- The `close` handler registered on worker `w`. -/
def onClose (w : Nat) (code : Option Int) (s : Supervisor) : Supervisor :=
  { currentCrowdData :=
      setProp "status" (.str ("Exited (Code: " ++ exitCodeText code ++ ")")) s.currentCrowdData
    pythonProcess := none
    workers := updateWorker w (fun x => { x with closed := true }) s.workers }

/-- The `error` handler registered on worker `w`. -/
def onError (w : Nat) (message : String) (s : Supervisor) : Supervisor :=
  { currentCrowdData :=
      setProp "error" (.str message) (setProp "status" (.str "Failed to start") s.currentCrowdData)
    pythonProcess := none
    workers := updateWorker w (fun x => { x with failed := true }) s.workers }

/-- The stdout `data` handler registered on a worker, as a state change: an
exception escaping the handler would end the process, which is `none`. -/
def onStdout (parse : String → Option JVal) (data : String) (s : Supervisor) :
    Option Supervisor :=
  match onStdoutData parse s.currentCrowdData data with
  | .ok (r, _) => some { s with currentCrowdData := r }
  | .error _ => none

/-- The calls and callbacks that change the supervisor. -/
inductive Event where
  | start (outcome : SpawnOutcome)
  | stop
  | stdout (w : Nat) (data : String)
  | stderr (w : Nat) (data : String)
  | close (w : Nat) (code : Option Int)
  | error (w : Nat) (message : String)

/-- A worker can emit events once it has been created and until its `close`. -/
def canEmit (s : Supervisor) (w : Nat) : Bool :=
  match s.workers[w]? with
  | some x => !x.closed
  | none => false

/-- One step of the supervisor; `none` when the event cannot occur in `s`. -/
def Supervisor.step (parse : String → Option JVal) (s : Supervisor) : Event → Option Supervisor
  | .start outcome => some (startPythonProcess outcome s)
  | .stop => some (stopPythonProcess s)
  | .stdout w data => if canEmit s w then onStdout parse data s else none
  | .stderr w _ => if canEmit s w then some s else none
  | .close w code => if canEmit s w then some (onClose w code s) else none
  | .error w message => if canEmit s w then some (onError w message s) else none

/-- A run of the supervisor over a list of events. -/
def Supervisor.run (parse : String → Option JVal) (s : Supervisor) :
    List Event → Option Supervisor
  | [] => some s
  | e :: es =>
    match s.step parse e with
    | some t => t.run parse es
    | none => none

/-- The `status` property of `currentCrowdData`. -/
def Supervisor.status (s : Supervisor) : Option JVal :=
  lookupProp "status" s.currentCrowdData

/-- Worker `w` is live: created, and neither failed, nor closed, nor asked to
terminate. -/
def isLive (s : Supervisor) (w : Nat) : Bool :=
  match s.workers[w]? with
  | some x => !x.killRequested && !x.failed && !x.closed
  | none => false

/-! ## The shutdown coordinator: `gracefulShutdown` and its callbacks -/

/-- The two signals with a registered handler. -/
inductive Signal where
  | SIGTERM
  | SIGINT
  deriving DecidableEq

/-- The calls of the shutdown sequence, in the order they are made:
`stopPythonProcess()`, `server.close(cb)`, `db.end(cb)` and
`process.exit(code)`. -/
inductive Effect where
  | stopWorker
  | closeListener
  | closeStore
  | exit (code : Nat)
  deriving DecidableEq

/-- The delay of the forced-shutdown timer, in milliseconds. -/
def shutdownTimeoutMs : Nat := 10000

/-- The server process during shutdown: the supervisor, the callbacks handed
to `server.close` and to `db.end` that the runtime has not yet invoked, the
delays of the pending `setTimeout` timers, the exit code once `process.exit`
was called, and the calls made so far. -/
structure Proc where
  sup : Supervisor
  listenerCallbacks : Nat
  storeCallbacks : Nat
  timers : List Nat
  exited : Option Nat
  trace : List Effect

/-- The process once the server is listening, before any signal. -/
def Proc.initial (sup : Supervisor) : Proc :=
  { sup := sup, listenerCallbacks := 0, storeCallbacks := 0, timers := [], exited := none,
    trace := [] }

/-- The function `gracefulShutdown(signal)`: stop the worker, call
`server.close` with the completion callback, arm the timer. -/
def gracefulShutdown (_signal : Signal) (p : Proc) : Proc :=
  { p with
    sup := stopPythonProcess p.sup
    listenerCallbacks := p.listenerCallbacks + 1
    timers := p.timers ++ [shutdownTimeoutMs]
    trace := p.trace ++ [.stopWorker, .closeListener] }

/-- The callback given to `server.close`: call `db.end` with its callback. -/
def onListenerClosed (p : Proc) : Proc :=
  { p with
    listenerCallbacks := p.listenerCallbacks - 1
    storeCallbacks := p.storeCallbacks + 1
    trace := p.trace ++ [.closeStore] }

/-- The callback given to `db.end`: log the outcome `err`, then
`process.exit(0)`. -/
def onStoreClosed (_err : Option String) (p : Proc) : Proc :=
  { p with
    storeCallbacks := p.storeCallbacks - 1
    exited := some 0
    trace := p.trace ++ [.exit 0] }

/-- The callback given to `setTimeout`: `process.exit(1)`. -/
def onShutdownTimeout (p : Proc) : Proc :=
  { p with
    timers := p.timers.tail
    exited := some 1
    trace := p.trace ++ [.exit 1] }

/-- What can happen to the process. -/
inductive ProcEvent where
  | signal (sig : Signal)
  | listenerClosed
  | storeClosed (err : Option String)
  | timeout
  | supervisor (e : Event)

/-- One step of the process; `none` when the event cannot occur: nothing runs
after `process.exit`, and the runtime invokes only callbacks it was given. -/
def Proc.step (parse : String → Option JVal) (p : Proc) (e : ProcEvent) : Option Proc :=
  match p.exited with
  | some _ => none
  | none =>
    match e with
    | .signal sig => some (gracefulShutdown sig p)
    | .listenerClosed => if 0 < p.listenerCallbacks then some (onListenerClosed p) else none
    | .storeClosed err => if 0 < p.storeCallbacks then some (onStoreClosed err p) else none
    | .timeout => if p.timers ≠ [] then some (onShutdownTimeout p) else none
    | .supervisor ev =>
      match p.sup.step parse ev with
      | some t => some { p with sup := t }
      | none => none

/-- A run of the process over a list of events. -/
def Proc.run (parse : String → Option JVal) (p : Proc) : List ProcEvent → Option Proc
  | [] => some p
  | e :: es =>
    match p.step parse e with
    | some q => q.run parse es
    | none => none

/-! ## Specification-level notions for the stdout handler -/

/-- The update the guard `jsonData && jsonData.density` lets through on a
line: the decoded value when it is an object whose `density` is truthy. -/
def acceptedUpdate (parse : String → Option JVal) (line : String) : Option JVal :=
  match parse line with
  | some (.obj props) =>
    if truthyOpt (lookupProp "density" props) then some (.obj props) else none
  | _ => none

/-- The values logged as received, which are the updates merged into
`currentCrowdData`, in order. -/
def receivedUpdates : List ConsoleMsg → List JVal
  | [] => []
  | .receivedData jsonData :: rest => jsonData :: receivedUpdates rest
  | _ :: rest => receivedUpdates rest

/-- The effect of one line on `currentCrowdData`. -/
def applyLine (parse : String → Option JVal) (cur : Record) (line : String) : Record :=
  match acceptedUpdate parse line with
  | some jsonData => mergeRunning cur jsonData
  | none => cur

/-- What the handler writes to the console for one line: the parse error with
the raw chunk when the line does not decode, the received value when the
guard accepts it, and the line itself as invalid otherwise. -/
def lineMessage (parse : String → Option JVal) (rawData : String) (line : String) :
    ConsoleMsg :=
  match parse line with
  | none => .parseError rawData
  | some v => if (acceptedUpdate parse line).isSome then .receivedData v else .invalidData line

/-- A well-formed worker line: it decodes to an object whose `density` is a
non-empty string. -/
def wellFormedLine (parse : String → Option JVal) (line : String) : Bool :=
  match parse line with
  | some (.obj props) =>
    match lookupProp "density" props with
    | some (.str d) => d != ""
    | _ => false
  | _ => false

/-- The decoder on the lines of the examples: what `JSON.parse` returns on
them; every other text is taken as undecodable. -/
def sampleParse (s : String) : Option JVal :=
  if s = "\x7b\"density\":\"High\",\"count\":42,\"timestamp\":\"T1\"\x7d" then
    some (.obj [("density", .str "High"), ("count", .num (.finite 42)),
      ("timestamp", .str "T1")])
  else if s = "\x7b\"density\":\"Low\"\x7d" then some (.obj [("density", .str "Low")])
  else if s = "\x7b\"density\":\"\"\x7d" then some (.obj [("density", .str "")])
  else none

/-- A decoded value without a `density` field: any value that is not an
object, or an object that does not define the key. -/
def lacksDensity : JVal → Bool
  | .obj props => (lookupProp "density" props).isNone
  | _ => true

/-- A malformed line: it fails to decode, or decodes to a value without a
`density` field. -/
def malformedLine (parse : String → Option JVal) (line : String) : Bool :=
  match parse line with
  | none => true
  | some v => lacksDensity v

/-- The updates C3 names: the lines of the chunk that decode to an object
containing a `density` field. -/
def densityFieldUpdates (parse : String → Option JVal) (data : String) : List JVal :=
  (jsonStrings data).filterMap (fun line =>
    match parse line with
    | some v => if lacksDensity v then none else some v
    | none => none)

/-! ## Specification-level notions for the supervisor -/

/-- The calling discipline under which a restart is safe:
`startPythonProcess()` is called only while a handle is held (where it does
nothing) or once every worker created so far has emitted `close`. -/
def startPermitted (s : Supervisor) : Bool :=
  s.pythonProcess.isSome || s.workers.all (fun x => x.closed)

/-- Whether event `e` respects the calling discipline in state `s`. -/
def respectsDiscipline (s : Supervisor) : Event → Bool
  | .start _ => startPermitted s
  | _ => true

/-- A run of the supervisor in which every call of `startPythonProcess()`
respects the calling discipline; `none` when an event cannot occur or a call
breaks the discipline. -/
def Supervisor.runDisciplined (parse : String → Option JVal) (s : Supervisor) :
    List Event → Option Supervisor
  | [] => some s
  | e :: es =>
    if respectsDiscipline s e then
      match s.step parse e with
      | some t => t.runDisciplined parse es
      | none => none
    else none

/-- The invariant of disciplined runs: every worker but the newest has
closed, and a live worker is the one the handle refers to. -/
def SupervisorInv (s : Supervisor) : Prop :=
  (∀ i x, s.workers[i]? = some x → i + 1 < s.workers.length → x.closed = true) ∧
  (∀ i, isLive s i = true → s.pythonProcess = some i)

/-! ## Specification-level notions for the shutdown coordinator -/

/-- In the trace `t`, every call `b` comes after a call `a`. -/
def PrecededBy (a b : Effect) (t : List Effect) : Prop :=
  ∀ pre post, t = pre ++ b :: post → a ∈ pre

/-- The invariant of the process: a pending `server.close` callback means
`server.close` was called, a pending `db.end` callback means `db.end` was
called, and the calls made so far are in shutdown order. -/
def ShutdownInv (p : Proc) : Prop :=
  (0 < p.listenerCallbacks → Effect.closeListener ∈ p.trace) ∧
  (0 < p.storeCallbacks → Effect.closeStore ∈ p.trace) ∧
  PrecededBy .stopWorker .closeListener p.trace ∧
  PrecededBy .closeListener .closeStore p.trace ∧
  PrecededBy .closeStore (.exit 0) p.trace

/-- The invariant of a process that has received a signal and has not
exited: a forced-shutdown timer is pending and `process.exit` was not called. -/
def WatchdogInv (p : Proc) : Prop :=
  p.exited = none → p.timers ≠ [] ∧ ∀ code, Effect.exit code ∉ p.trace

/-! ## Property lists -/

theorem hasProp_cons (k : String) (p : String × JVal) (r : Record) :
    hasProp k (p :: r) = (decide (p.1 = k) || hasProp k r) := rfl

theorem lookupProp_append_single (k k' : String) (v : JVal) (r : Record) :
    lookupProp k (r ++ [(k', v)]) = if k' = k then some v else lookupProp k r := by
  induction r with
  | nil => simp [lookupProp]
  | cons p rest ih =>
    rw [List.cons_append, lookupProp, lookupProp, ih]
    by_cases h : k' = k
    · simp [h]
    · simp [h]

theorem lookupProp_map_set (k k' : String) (v : JVal) (r : Record) :
    lookupProp k (r.map (fun p => if p.1 = k' then (k', v) else p)) =
      if k' = k then (if hasProp k' r then some v else none) else lookupProp k r := by
  induction r with
  | nil => simp [lookupProp, hasProp]
  | cons p rest ih =>
    rw [List.map_cons, lookupProp, lookupProp, ih, hasProp_cons]
    by_cases h : k' = k
    · subst h
      by_cases ha : p.1 = k'
      · cases hr : hasProp k' rest <;> simp [ha]
      · cases hr : hasProp k' rest <;> simp [ha]
    · by_cases ha : p.1 = k'
      · have : ¬ p.1 = k := fun e => h (ha ▸ e)
        simp [h, ha, this]
      · simp [h, ha]

/-- Reading back the key just written. -/
theorem lookupProp_setProp_same (k : String) (v : JVal) (r : Record) :
    lookupProp k (setProp k v r) = some v := by
  unfold setProp
  by_cases h : hasProp k r = true
  · simp [h, lookupProp_map_set]
  · simp [h, lookupProp_append_single]

/-- A write leaves every other key as it was. -/
theorem lookupProp_setProp_ne (k k' : String) (v : JVal) (r : Record) (h : k' ≠ k) :
    lookupProp k (setProp k' v r) = lookupProp k r := by
  unfold setProp
  by_cases hp : hasProp k' r = true
  · simp [hp, lookupProp_map_set, h]
  · simp [hp, lookupProp_append_single, h]

theorem lookupProp_setProp (k k' : String) (v : JVal) (r : Record) :
    lookupProp k (setProp k' v r) = if k' = k then some v else lookupProp k r := by
  by_cases h : k' = k
  · subst h; simp [lookupProp_setProp_same]
  · simp [h, lookupProp_setProp_ne]

theorem lookupProp_foldl_setProp (k : String) (ps r : Record) :
    lookupProp k (ps.foldl (fun acc p => setProp p.1 p.2 acc) r) =
      (lookupProp k ps).or (lookupProp k r) := by
  induction ps generalizing r with
  | nil => simp [lookupProp]
  | cons p rest ih =>
    simp only [List.foldl_cons, ih, lookupProp, lookupProp_setProp, Option.or_assoc]
    by_cases h : p.1 = k
    · simp [h]
    · simp [h]

/-- A spread overwrites the keys it defines and keeps the others. -/
theorem lookupProp_spreadOnto (k : String) (r : Record) (v : JVal) :
    lookupProp k (spreadOnto r v) = (lookupProp k (ownProps v)).or (lookupProp k r) := by
  unfold spreadOnto
  exact lookupProp_foldl_setProp k (ownProps v) r

/-- Copying a property list into a fresh object keeps every association. -/
theorem lookupProp_spread_fresh (k : String) (r : Record) :
    lookupProp k (spreadOnto [] (.obj r)) = lookupProp k r := by
  rw [lookupProp_spreadOnto]
  simp [ownProps, lookupProp, Option.or_none]

/-- The merge of the stdout handler, key by key: `status` is `"Running"`, a
key the update defines takes the update's value, any other key keeps its
value. -/
theorem lookupProp_mergeRunning (k : String) (cur : Record) (jsonData : JVal) :
    lookupProp k (mergeRunning cur jsonData) =
      if k = "status" then some (.str "Running")
      else (lookupProp k (ownProps jsonData)).or (lookupProp k cur) := by
  unfold mergeRunning
  rw [lookupProp_setProp, lookupProp_spreadOnto, lookupProp_spread_fresh]
  by_cases h : k = "status"
  · simp [h]
  · have h' : ¬ ("status" = k) := fun e => h e.symm
    simp [h, h']

/-! ## The stdout handler as a fold over the accepted updates -/

theorem receivedUpdates_append (a b : List ConsoleMsg) :
    receivedUpdates (a ++ b) = receivedUpdates a ++ receivedUpdates b := by
  induction a with
  | nil => rfl
  | cons m rest ih => cases m <;> simp [receivedUpdates, ih]

theorem forEachCallback_spec (parse : String → Option JVal) (rawData : String)
    (st : Record × List ConsoleMsg) (line : String) :
    ∃ log, forEachCallback parse rawData st line = .ok (applyLine parse st.1 line, log) ∧
      receivedUpdates log = receivedUpdates st.2 ++ (acceptedUpdate parse line).toList := by
  unfold forEachCallback tryBlock applyLine acceptedUpdate
  cases hp : parse line with
  | none => exact ⟨_, rfl, by simp [receivedUpdates_append, receivedUpdates]⟩
  | some j =>
    cases j with
    | obj props =>
      by_cases ht : truthyOpt (lookupProp "density" props) = true
      · exact ⟨_, by simp [densityGuard, JVal.truthy, getMember, ht]; rfl,
          by simp [receivedUpdates_append, receivedUpdates, ht]⟩
      · exact ⟨_, by simp [densityGuard, JVal.truthy, getMember, ht]; rfl,
          by simp [receivedUpdates_append, receivedUpdates, ht]⟩
    | null =>
      exact ⟨_, by simp [densityGuard, JVal.truthy, truthyOpt]; rfl,
        by simp [receivedUpdates_append, receivedUpdates]⟩
    | bool b =>
      cases b <;>
      exact ⟨_, by simp [densityGuard, JVal.truthy, truthyOpt, getMember]; rfl,
        by simp [receivedUpdates_append, receivedUpdates]⟩
    | num n =>
      by_cases hn : n.truthy = true
      · exact ⟨_, by simp [densityGuard, JVal.truthy, truthyOpt, getMember, hn]; rfl,
          by simp [receivedUpdates_append, receivedUpdates]⟩
      · exact ⟨_, by simp [densityGuard, JVal.truthy, truthyOpt, getMember, hn]; rfl,
          by simp [receivedUpdates_append, receivedUpdates]⟩
    | str s =>
      by_cases hs : s = ""
      · exact ⟨_, by simp [densityGuard, JVal.truthy, truthyOpt, getMember, hs]; rfl,
          by simp [receivedUpdates_append, receivedUpdates]⟩
      · exact ⟨_, by simp [densityGuard, JVal.truthy, truthyOpt, getMember, hs]; rfl,
          by simp [receivedUpdates_append, receivedUpdates]⟩
    | arr items =>
      exact ⟨_, by simp [densityGuard, JVal.truthy, truthyOpt, getMember]; rfl,
        by simp [receivedUpdates_append, receivedUpdates]⟩

theorem foldlM_forEachCallback (parse : String → Option JVal) (rawData : String)
    (lines : List String) (st : Record × List ConsoleMsg) :
    ∃ log, lines.foldlM (forEachCallback parse rawData) st =
        .ok (lines.foldl (applyLine parse) st.1, log) ∧
      receivedUpdates log = receivedUpdates st.2 ++ lines.filterMap (acceptedUpdate parse) := by
  induction lines generalizing st with
  | nil => exact ⟨st.2, rfl, by simp⟩
  | cons line rest ih =>
    obtain ⟨log1, h1, hr1⟩ := forEachCallback_spec parse rawData st line
    obtain ⟨log2, h2, hr2⟩ := ih (applyLine parse st.1 line, log1)
    refine ⟨log2, ?_, ?_⟩
    · rw [List.foldlM_cons, h1]
      exact h2
    · rw [hr2, hr1]
      cases h : acceptedUpdate parse line <;> simp [List.filterMap_cons, h]

theorem foldl_applyLine (parse : String → Option JVal) (lines : List String) (cur : Record) :
    lines.foldl (applyLine parse) cur =
      (lines.filterMap (acceptedUpdate parse)).foldl mergeRunning cur := by
  induction lines generalizing cur with
  | nil => rfl
  | cons line rest ih =>
    rw [List.foldl_cons, ih]
    cases h : acceptedUpdate parse line <;> simp [List.filterMap_cons, h, applyLine]

/-- The stdout handler never throws; it merges the accepted updates of the
chunk in order, and logs exactly those as received. -/
theorem onStdoutData_spec (parse : String → Option JVal) (cur : Record) (data : String) :
    ∃ log, onStdoutData parse cur data =
        .ok (((jsonStrings data).filterMap (acceptedUpdate parse)).foldl mergeRunning cur, log) ∧
      receivedUpdates log = (jsonStrings data).filterMap (acceptedUpdate parse) := by
  obtain ⟨log, h, hr⟩ :=
    foldlM_forEachCallback parse (jsTrim data) (jsonStrings data) (cur, [])
  refine ⟨log, ?_, ?_⟩
  · unfold onStdoutData
    rw [h, foldl_applyLine]
  · simpa [receivedUpdates] using hr

theorem onStdoutChunks_spec (parse : String → Option JVal) (chunks : List String)
    (cur : Record) :
    onStdoutChunks parse cur chunks =
      .ok (((chunks.flatMap jsonStrings).filterMap (acceptedUpdate parse)).foldl mergeRunning cur) := by
  induction chunks generalizing cur with
  | nil => rfl
  | cons data rest ih =>
    obtain ⟨log, h, _⟩ := onStdoutData_spec parse cur data
    have ih' := ih (((jsonStrings data).filterMap (acceptedUpdate parse)).foldl mergeRunning cur)
    unfold onStdoutChunks at ih' ⊢
    rw [List.foldlM_cons, h]
    simp only [List.flatMap_cons, List.filterMap_append, List.foldl_append]
    exact ih'

theorem forEachCallback_log (parse : String → Option JVal) (rawData : String)
    (st : Record × List ConsoleMsg) (line : String) :
    forEachCallback parse rawData st line =
      .ok (applyLine parse st.1 line, st.2 ++ [lineMessage parse rawData line]) := by
  unfold forEachCallback tryBlock applyLine lineMessage acceptedUpdate
  cases hp : parse line with
  | none => rfl
  | some j =>
    cases j with
    | obj props =>
      by_cases ht : truthyOpt (lookupProp "density" props) = true
      · simp [densityGuard, JVal.truthy, getMember, ht]
      · simp [densityGuard, JVal.truthy, getMember, ht]
    | null => simp [densityGuard, JVal.truthy, truthyOpt]
    | bool b => cases b <;> simp [densityGuard, JVal.truthy, truthyOpt, getMember]
    | num n =>
      by_cases hn : n.truthy = true
      · simp [densityGuard, JVal.truthy, truthyOpt, getMember, hn]
      · simp [densityGuard, JVal.truthy, truthyOpt, getMember, hn]
    | str s =>
      by_cases hs : s = ""
      · simp [densityGuard, JVal.truthy, truthyOpt, getMember, hs]
      · simp [densityGuard, JVal.truthy, truthyOpt, getMember, hs]
    | arr items => simp [densityGuard, JVal.truthy, truthyOpt, getMember]

theorem foldlM_forEachCallback_log (parse : String → Option JVal) (rawData : String)
    (lines : List String) (st : Record × List ConsoleMsg) :
    lines.foldlM (forEachCallback parse rawData) st =
      .ok (lines.foldl (applyLine parse) st.1,
        st.2 ++ lines.map (lineMessage parse rawData)) := by
  induction lines generalizing st with
  | nil => simp [pure, Except.pure]
  | cons line rest ih =>
    rw [List.foldlM_cons, forEachCallback_log]
    have := ih (applyLine parse st.1 line, st.2 ++ [lineMessage parse rawData line])
    simp only [List.append_assoc, List.singleton_append] at this
    exact this

/-- The stdout handler in full: the record it leaves and the console output,
one message per line in order. -/
theorem onStdoutData_log (parse : String → Option JVal) (cur : Record) (data : String) :
    onStdoutData parse cur data =
      .ok (((jsonStrings data).filterMap (acceptedUpdate parse)).foldl mergeRunning cur,
        (jsonStrings data).map (lineMessage parse (jsTrim data))) := by
  unfold onStdoutData
  rw [foldlM_forEachCallback_log, foldl_applyLine]
  simp

/-! ## Splitting and trimming -/

theorem splitChars_ne_nil (cs : List Char) : splitChars cs ≠ [] := by
  cases cs with
  | nil => simp [splitChars]
  | cons c rest =>
    unfold splitChars
    by_cases h : c = lineFeed
    · simp [h]
    · simp only [h, if_false]
      cases splitChars rest <;> simp

/-- Splitting at a line feed splits the list of pieces. -/
theorem splitChars_append_lineFeed (a b : List Char) :
    splitChars (a ++ lineFeed :: b) = splitChars a ++ splitChars b := by
  induction a with
  | nil => simp [splitChars]
  | cons c rest ih =>
    rw [List.cons_append, splitChars, ih]
    by_cases h : c = lineFeed
    · simp [h, splitChars]
    · simp only [h, if_false]
      have hne := splitChars_ne_nil rest
      rw [splitChars]
      simp only [h, if_false]
      cases hs : splitChars rest with
      | nil => exact absurd hs hne
      | cons l ls => simp

/-- A text without line feed is a single piece. -/
theorem splitChars_of_no_lineFeed (l : List Char) (h : lineFeed ∉ l) : splitChars l = [l] := by
  induction l with
  | nil => rfl
  | cons c rest ih =>
    have hc : ¬ c = lineFeed := fun e => h (by simp [e])
    have hr : lineFeed ∉ rest := fun e => h (by simp [e])
    rw [splitChars, ih hr]
    simp [hc]

theorem dropWhile_append_of_exists {p : Char → Bool} (a b : List Char)
    (h : ∃ c ∈ a, p c = false) : (a ++ b).dropWhile p = a.dropWhile p ++ b := by
  rw [List.dropWhile_append]
  have : (a.dropWhile p).isEmpty = false := by
    obtain ⟨c, hc, hpc⟩ := h
    cases hd : a.dropWhile p with
    | nil =>
      have := (List.dropWhile_eq_nil_iff).1 hd c hc
      simp [hpc] at this
    | cons x xs => rfl
  simp [this]

/-- Trimming a text whose first and last part each hold a character that is
not white space only trims those two parts. -/
theorem trimChars_append3 (pre mid post : List Char)
    (hpre : ∃ c ∈ pre, isJsWhiteSpace c = false)
    (hpost : ∃ c ∈ post, isJsWhiteSpace c = false) :
    trimChars (pre ++ mid ++ post) =
      pre.dropWhile isJsWhiteSpace ++ mid ++ (post.reverse.dropWhile isJsWhiteSpace).reverse := by
  unfold trimChars
  rw [List.append_assoc, dropWhile_append_of_exists pre (mid ++ post) hpre]
  have hpost' : ∃ c ∈ post.reverse, isJsWhiteSpace c = false := by
    obtain ⟨c, hc, hpc⟩ := hpost
    exact ⟨c, by simpa using hc, hpc⟩
  rw [List.reverse_append, List.reverse_append, List.append_assoc,
    dropWhile_append_of_exists post.reverse _ hpost']
  simp [List.reverse_append]

/-! ## Claims on the stdout handler -/

theorem acceptedUpdate_of_wellFormed (parse : String → Option JVal) (line : String)
    (h : wellFormedLine parse line = true) : acceptedUpdate parse line = parse line := by
  unfold wellFormedLine at h
  unfold acceptedUpdate
  cases hp : parse line with
  | none => rfl
  | some j =>
    rw [hp] at h
    cases j with
    | obj props =>
      simp only at h ⊢
      cases hd : lookupProp "density" props with
      | none => rw [hd] at h; simp at h
      | some d =>
        rw [hd] at h
        cases d <;> simp at h
        simp [truthyOpt, JVal.truthy, h]
    | _ => simp at h

theorem filterMap_acceptedUpdate_of_wellFormed (parse : String → Option JVal)
    (lines : List String) (h : ∀ line ∈ lines, wellFormedLine parse line = true) :
    lines.filterMap (acceptedUpdate parse) = lines.filterMap parse := by
  induction lines with
  | nil => rfl
  | cons line rest ih =>
    have h1 := acceptedUpdate_of_wellFormed parse line (h line (by simp))
    have h2 := ih (fun l hl => h l (by simp [hl]))
    simp only [List.filterMap_cons, h1, h2]

theorem status_foldl_mergeRunning (cur : Record) (updates : List JVal) (h : updates ≠ []) :
    lookupProp "status" (updates.foldl mergeRunning cur) = some (.str "Running") := by
  induction updates using List.reverseRecOn with
  | nil => exact absurd rfl h
  | append_singleton rest j _ =>
    rw [List.foldl_append]
    simp [lookupProp_mergeRunning]

theorem length_filterMap_of_wellFormed (parse : String → Option JVal)
    (lines : List String) (h : ∀ line ∈ lines, wellFormedLine parse line = true) :
    (lines.filterMap parse).length = lines.length := by
  induction lines with
  | nil => rfl
  | cons line rest ih =>
    have h1 : wellFormedLine parse line = true := h line (by simp)
    have h2 := ih (fun l hl => h l (by simp [hl]))
    unfold wellFormedLine at h1
    cases hp : parse line with
    | none => simp [hp] at h1
    | some j => simp [List.filterMap_cons, hp, h2]

/-- C1. For every status record and every sequence of stdout chunks whose
lines (the non-blank newline-separated segments the handler takes from each
trimmed chunk) are all well-formed, the record after the stdout handler has
processed them is the left fold of the decoded lines merged onto the starting
record in stream order; a merge sets `status` to `"Running"` (also over a `status` key
of the line), gives every key of the line the line's value and keeps every
other key, so the status is `"Running"` after every line. With a decoder that
reads the two example lines as `JSON.parse` does, the initial record becomes
`{density:"Low", count:42, timestamp:"T1", status:"Running"}`. -/
theorem stdout_wellFormed_lines_fold (parse : String → Option JVal) (cur : Record)
    (chunks : List String)
    (hwf : ∀ data ∈ chunks, ∀ line ∈ jsonStrings data, wellFormedLine parse line = true) :
    onStdoutChunks parse cur chunks =
        .ok (((chunks.flatMap jsonStrings).filterMap parse).foldl mergeRunning cur) ∧
      (∀ n, 0 < n → n ≤ (chunks.flatMap jsonStrings).length →
        lookupProp "status"
          ((((chunks.flatMap jsonStrings).take n).filterMap parse).foldl mergeRunning cur) =
            some (.str "Running")) ∧
      (∀ (r : Record) (jsonData : JVal) (k : String),
        lookupProp k (mergeRunning r jsonData) =
          if k = "status" then some (.str "Running")
          else (lookupProp k (ownProps jsonData)).or (lookupProp k r)) ∧
      (parse "\x7b\"density\":\"High\",\"count\":42,\"timestamp\":\"T1\"\x7d" =
          some (.obj [("density", .str "High"), ("count", .num (.finite 42)),
            ("timestamp", .str "T1")]) →
        parse "\x7b\"density\":\"Low\"\x7d" = some (.obj [("density", .str "Low")]) →
        onStdoutChunks parse initialCrowdData
            ["\x7b\"density\":\"High\",\"count\":42,\"timestamp\":\"T1\"\x7d\n",
             "\x7b\"density\":\"Low\"\x7d\n"] =
          .ok [("density", .str "Low"), ("count", .num (.finite 42)),
            ("timestamp", .str "T1"), ("status", .str "Running")]) := by
  have hall : ∀ line ∈ chunks.flatMap jsonStrings, wellFormedLine parse line = true := by
    intro line hl
    obtain ⟨data, hd, hl'⟩ := List.mem_flatMap.1 hl
    exact hwf data hd line hl'
  refine ⟨?_, ?_, ?_, ?_⟩
  · rw [onStdoutChunks_spec, filterMap_acceptedUpdate_of_wellFormed parse _ hall]
  · intro n hn hle
    apply status_foldl_mergeRunning
    have htake : ∀ line ∈ (chunks.flatMap jsonStrings).take n,
        wellFormedLine parse line = true :=
      fun l hl => hall l (List.mem_of_mem_take hl)
    have hlen := length_filterMap_of_wellFormed parse _ htake
    intro hnil
    rw [hnil, List.length_take, List.length_nil] at hlen
    omega
  · intro r jsonData k
    exact lookupProp_mergeRunning k r jsonData
  · intro h1 h2
    rw [onStdoutChunks_spec]
    have hs : (["\x7b\"density\":\"High\",\"count\":42,\"timestamp\":\"T1\"\x7d\n",
             "\x7b\"density\":\"Low\"\x7d\n"] : List String).flatMap jsonStrings =
        ["\x7b\"density\":\"High\",\"count\":42,\"timestamp\":\"T1\"\x7d", "\x7b\"density\":\"Low\"\x7d"] := by
      decide
    rw [hs]
    simp only [List.filterMap_cons, List.filterMap_nil, acceptedUpdate, h1, h2]
    rfl

/-- The example of C1 on one chunk that holds both lines, with `sampleParse`. -/
theorem stdout_wellFormed_lines_fold_witness :
    (∀ data ∈ ["\x7b\"density\":\"High\",\"count\":42,\"timestamp\":\"T1\"\x7d\n\x7b\"density\":\"Low\"\x7d\n"],
        ∀ line ∈ jsonStrings data, wellFormedLine sampleParse line = true) ∧
      onStdoutChunks sampleParse initialCrowdData
          ["\x7b\"density\":\"High\",\"count\":42,\"timestamp\":\"T1\"\x7d\n\x7b\"density\":\"Low\"\x7d\n"] =
        .ok [("density", .str "Low"), ("count", .num (.finite 42)),
          ("timestamp", .str "T1"), ("status", .str "Running")] :=
  ⟨by decide,
   (stdout_wellFormed_lines_fold sampleParse initialCrowdData
      ["\x7b\"density\":\"High\",\"count\":42,\"timestamp\":\"T1\"\x7d\n\x7b\"density\":\"Low\"\x7d\n"]
      (by decide)).1.trans (by rfl)⟩

theorem acceptedUpdate_of_malformed (parse : String → Option JVal) (line : String)
    (h : malformedLine parse line = true) : acceptedUpdate parse line = none := by
  unfold malformedLine at h
  unfold acceptedUpdate
  cases hp : parse line with
  | none => rfl
  | some j =>
    rw [hp] at h
    cases j with
    | obj props =>
      simp only [lacksDensity, Option.isNone_iff_eq_none] at h
      simp [h, truthyOpt]
    | _ => rfl

/-- The lines of a chunk in which the line `bad` stands between `pre` and
`post`, against the lines of the chunk without it. -/
theorem jsonStrings_insert_line (pre bad post : String)
    (hpre : ∃ c ∈ pre.data, isJsWhiteSpace c = false)
    (hpost : ∃ c ∈ post.data, isJsWhiteSpace c = false)
    (hline : lineFeed ∉ bad.data) :
    ∃ before after : List String,
      jsonStrings (pre ++ "\n" ++ bad ++ "\n" ++ post) =
        before ++ [bad].filter (fun s => jsTrim s != "") ++ after ∧
      jsonStrings (pre ++ "\n" ++ post) = before ++ after := by
  have hlf : ("\n" : String).data = [lineFeed] := rfl
  refine ⟨((splitChars (pre.data.dropWhile isJsWhiteSpace)).map String.mk).filter
            (fun s => jsTrim s != ""),
          ((splitChars (post.data.reverse.dropWhile isJsWhiteSpace).reverse).map String.mk).filter
            (fun s => jsTrim s != ""), ?_, ?_⟩
  · unfold jsonStrings jsSplitLines jsTrim
    have hd : (pre ++ "\n" ++ bad ++ "\n" ++ post).data =
        pre.data ++ (lineFeed :: (bad.data ++ [lineFeed])) ++ post.data := by
      simp only [String.data_append, hlf, List.append_assoc, List.cons_append,
        List.nil_append]
      rfl
    simp only [hd]
    rw [trimChars_append3 _ _ _ hpre hpost]
    rw [List.append_assoc, List.cons_append, splitChars_append_lineFeed]
    rw [List.append_assoc, List.singleton_append, splitChars_append_lineFeed,
      splitChars_of_no_lineFeed _ hline]
    simp only [List.map_append, List.filter_append, List.append_assoc]
    rfl
  · unfold jsonStrings jsSplitLines jsTrim
    have hd : (pre ++ "\n" ++ post).data = pre.data ++ [lineFeed] ++ post.data := by
      simp only [String.data_append, hlf]
      rfl
    simp only [hd]
    rw [trimChars_append3 _ _ _ hpre hpost]
    rw [List.append_assoc, List.singleton_append, splitChars_append_lineFeed]
    simp [List.filter_append, List.map_append]

/-- C2. Drop-and-continue: a malformed line (it fails to decode, or decodes
to a value without a `density` field) inserted between two parts of a chunk
that each hold a character that is not white space, as two well-formed lines
do, does not change the record the stdout handler produces, and the handler
returns normally on both chunks. -/
theorem stdout_malformed_line_dropped (parse : String → Option JVal) (cur : Record)
    (pre bad post : String)
    (hpre : ∃ c ∈ pre.data, isJsWhiteSpace c = false)
    (hpost : ∃ c ∈ post.data, isJsWhiteSpace c = false)
    (hline : lineFeed ∉ bad.data)
    (hbad : malformedLine parse bad = true) :
    ∃ (r : Record) (logWith logWithout : List ConsoleMsg),
      onStdoutData parse cur (pre ++ "\n" ++ bad ++ "\n" ++ post) = .ok (r, logWith) ∧
      onStdoutData parse cur (pre ++ "\n" ++ post) = .ok (r, logWithout) := by
  obtain ⟨before, after, h1, h0⟩ := jsonStrings_insert_line pre bad post hpre hpost hline
  obtain ⟨log1, e1, _⟩ := onStdoutData_spec parse cur (pre ++ "\n" ++ bad ++ "\n" ++ post)
  obtain ⟨log0, e0, _⟩ := onStdoutData_spec parse cur (pre ++ "\n" ++ post)
  refine ⟨_, log1, log0, e1, ?_⟩
  rw [e0, h1, h0]
  have hmid : ([bad].filter (fun s => jsTrim s != "")).filterMap (acceptedUpdate parse) = [] := by
    by_cases hb : (jsTrim bad != "") = true
    · simp [List.filter_cons, hb, acceptedUpdate_of_malformed parse bad hbad]
    · simp [List.filter_cons, hb]
  simp only [List.filterMap_append, hmid, List.append_nil]

/-- The witness of C2: the line `not-json` between the two example lines. -/
theorem stdout_malformed_line_dropped_witness :
    ∃ (r : Record) (logWith logWithout : List ConsoleMsg),
      onStdoutData sampleParse initialCrowdData
          ("\x7b\"density\":\"High\",\"count\":42,\"timestamp\":\"T1\"\x7d" ++ "\n" ++ "not-json" ++
            "\n" ++ "\x7b\"density\":\"Low\"\x7d\n") = .ok (r, logWith) ∧
      onStdoutData sampleParse initialCrowdData
          ("\x7b\"density\":\"High\",\"count\":42,\"timestamp\":\"T1\"\x7d" ++ "\n" ++
            "\x7b\"density\":\"Low\"\x7d\n") = .ok (r, logWithout) :=
  stdout_malformed_line_dropped sampleParse initialCrowdData
    "\x7b\"density\":\"High\",\"count\":42,\"timestamp\":\"T1\"\x7d" "not-json" "\x7b\"density\":\"Low\"\x7d\n"
    (by decide) (by decide) (by decide) (by decide)

/-- The claim C3 fails as stated: the line `{"density":""}` decodes to an
object containing a `density` field, and the handler applies no update for
it: the record is unchanged and the line is logged as invalid. -/
theorem stdout_empty_density_not_applied :
    densityFieldUpdates sampleParse "\x7b\"density\":\"\"\x7d\n" = [.obj [("density", .str "")]] ∧
      onStdoutData sampleParse initialCrowdData "\x7b\"density\":\"\"\x7d\n" =
        .ok (initialCrowdData, [.invalidData "\x7b\"density\":\"\"\x7d"]) ∧
      receivedUpdates [.invalidData "\x7b\"density\":\"\"\x7d"] = [] :=
  ⟨by rfl, by rfl, by rfl⟩

theorem acceptedUpdate_eq_some_iff (parse : String → Option JVal) (line : String)
    (v : JVal) :
    acceptedUpdate parse line = some v ↔
      parse line = some v ∧
        ∃ props d, v = .obj props ∧ lookupProp "density" props = some d ∧ d.truthy = true := by
  cases hp : parse line with
  | none =>
    have e : acceptedUpdate parse line = none := by unfold acceptedUpdate; rw [hp]
    simp [e]
  | some j =>
    cases j with
    | obj props =>
      have e : acceptedUpdate parse line =
          if truthyOpt (lookupProp "density" props) then some (.obj props) else none := by
        unfold acceptedUpdate; rw [hp]
      rw [e]
      cases hd : lookupProp "density" props with
      | none =>
        simp only [truthyOpt, Bool.false_eq_true, if_false]
        constructor
        · intro h; cases h
        · rintro ⟨h, props2, d2, hv, hd2, _⟩
          rw [Option.some.injEq] at h
          rw [← h, JVal.obj.injEq] at hv
          subst hv
          rw [hd] at hd2
          cases hd2
      | some d =>
        by_cases ht : d.truthy = true
        · simp only [truthyOpt, ht, if_true]
          constructor
          · intro h
            rw [Option.some.injEq] at h
            exact ⟨by rw [h], props, d, h.symm, hd, ht⟩
          · intro h; exact h.1
        · simp only [truthyOpt, ht, if_false]
          constructor
          · intro h; cases h
          · rintro ⟨h, props2, d2, hv, hd2, ht2⟩
            rw [Option.some.injEq] at h
            rw [← h, JVal.obj.injEq] at hv
            subst hv
            rw [hd, Option.some.injEq] at hd2
            subst hd2
            exact absurd ht2 ht
    | _ =>
      have e : acceptedUpdate parse line = none := by unfold acceptedUpdate; rw [hp]
      rw [e]
      constructor
      · intro h; cases h
      · rintro ⟨h, props, d, hv, _⟩
        rw [Option.some.injEq] at h
        subst h
        cases hv

/-- C3, amended. For every stdout chunk the handler returns normally, and the
updates it applies to the record (those it logs as received) are exactly the
newline-separated, non-blank segments of the trimmed chunk that decode to an
object whose `density` field is truthy (present, and not `null`, `false`,
`0` or `""`): one update per such segment, merged in the order of the
segments, and none for any other segment. The console holds one message per
segment, in order: a segment that decodes but is not accepted (its `density`
is absent or falsy) is logged as invalid, a segment that does not decode is
logged as a parse error, and both are dropped. -/
theorem stdout_updates_are_truthy_density_segments (parse : String → Option JVal)
    (cur : Record) (data : String) :
    onStdoutData parse cur data =
      .ok (((jsonStrings data).filterMap (acceptedUpdate parse)).foldl mergeRunning cur,
        (jsonStrings data).map (lineMessage parse (jsTrim data))) ∧
    receivedUpdates ((jsonStrings data).map (lineMessage parse (jsTrim data))) =
      (jsonStrings data).filterMap (acceptedUpdate parse) ∧
    (∀ (line : String) (v : JVal), acceptedUpdate parse line = some v ↔
      parse line = some v ∧
        ∃ props d, v = .obj props ∧ lookupProp "density" props = some d ∧ d.truthy = true) ∧
    (∀ (rawData line : String) (v : JVal), acceptedUpdate parse line = some v →
      lineMessage parse rawData line = .receivedData v) ∧
    (∀ (rawData line : String) (v : JVal), parse line = some v →
      acceptedUpdate parse line = none →
      lineMessage parse rawData line = .invalidData line) ∧
    (∀ (rawData line : String) (props : Record) (d : JVal),
      parse line = some (.obj props) → lookupProp "density" props = some d →
      d.truthy = false →
      acceptedUpdate parse line = none ∧
        lineMessage parse rawData line = .invalidData line) ∧
    (∀ (rawData line : String), parse line = none →
      acceptedUpdate parse line = none ∧
        lineMessage parse rawData line = .parseError rawData) ∧
    jsonStrings data =
      ((splitChars (trimChars data.data)).map String.mk).filter (fun s => jsTrim s != "") := by
  have hlog := onStdoutData_log parse cur data
  refine ⟨hlog, ?_, acceptedUpdate_eq_some_iff parse, ?_, ?_, ?_, ?_, rfl⟩
  · obtain ⟨log, h, hr⟩ := onStdoutData_spec parse cur data
    rw [hlog, Except.ok.injEq, Prod.mk.injEq] at h
    rw [h.2]
    exact hr
  · intro rawData line v hv
    have hp := ((acceptedUpdate_eq_some_iff parse line v).1 hv).1
    unfold lineMessage
    rw [hp]
    simp [hv]
  · intro rawData line v hp hn
    unfold lineMessage
    rw [hp]
    simp [hn]
  · intro rawData line props d hp hd ht
    have hn : acceptedUpdate parse line = none := by
      unfold acceptedUpdate
      rw [hp]
      simp [hd, truthyOpt, ht]
    refine ⟨hn, ?_⟩
    unfold lineMessage
    rw [hp]
    simp [hn]
  · intro rawData line hp
    constructor
    · unfold acceptedUpdate
      rw [hp]
    · unfold lineMessage
      rw [hp]

/-! ## Claims on the supervisor -/

/-- The claim C4 fails as stated: after `startPythonProcess()` and
`stopPythonProcess()` the status is `"Stopped"` and no handle is held; the
`close` event of the stopped worker then sets the status to
`"Exited (Code: null)"`, and a stdout chunk of the stopped worker that is
still in flight sets it to `"Running"`, with `startPythonProcess()` not
called again. -/
theorem stopped_status_overwritten_by_stopped_worker :
    (Supervisor.run sampleParse Supervisor.initial [.start .returns, .stop]).map
        (fun s => (s.status, s.pythonProcess)) = some (some (.str "Stopped"), none) ∧
      (Supervisor.run sampleParse Supervisor.initial
          [.start .returns, .stop, .close 0 none]).map Supervisor.status =
        some (some (.str "Exited (Code: null)")) ∧
      (Supervisor.run sampleParse Supervisor.initial
          [.start .returns, .stop, .stdout 0 "\x7b\"density\":\"Low\"\x7d\n"]).map
        (fun s => (s.status, s.pythonProcess)) = some (some (.str "Running"), none) :=
  ⟨by rfl, by rfl, by rfl⟩

/-- The claim C5 fails as stated: after start, stop, start, the `close` event
of the first (stopped) worker clears the handle although the second worker is
live, and the next start creates a third worker, so that two workers are live
at once. -/
theorem two_live_workers_after_stale_close :
    (Supervisor.run sampleParse Supervisor.initial
        [.start .returns, .stop, .start .returns, .close 0 none]).map
      (fun s => (s.pythonProcess, isLive s 1)) = some (none, true) ∧
    (Supervisor.run sampleParse Supervisor.initial
        [.start .returns, .stop, .start .returns, .close 0 none, .start .returns]).map
      (fun s => (s.pythonProcess, isLive s 1, isLive s 2)) = some (some 2, true, true) :=
  ⟨by rfl, by rfl⟩

theorem length_updateWorker (w : Nat) (f : Worker → Worker) (ws : List Worker) :
    (updateWorker w f ws).length = ws.length := by
  induction ws generalizing w with
  | nil => simp [updateWorker]
  | cons x xs ih =>
    cases w with
    | zero => simp [updateWorker]
    | succ n => simp [updateWorker, ih]

theorem getElem?_updateWorker (w : Nat) (f : Worker → Worker) (ws : List Worker) (i : Nat) :
    (updateWorker w f ws)[i]? = if i = w then ws[i]?.map f else ws[i]? := by
  induction ws generalizing w i with
  | nil => simp [updateWorker]
  | cons x xs ih =>
    cases w with
    | zero =>
      cases i with
      | zero => simp [updateWorker]
      | succ j => simp [updateWorker]
    | succ n =>
      cases i with
      | zero => simp [updateWorker]
      | succ j => simp [updateWorker, ih]

theorem isLive_iff (s : Supervisor) (i : Nat) :
    isLive s i = true ↔
      ∃ x, s.workers[i]? = some x ∧ x.killRequested = false ∧ x.failed = false ∧
        x.closed = false := by
  unfold isLive
  cases h : s.workers[i]? with
  | none => simp
  | some x => simp [and_assoc]

theorem canEmit_iff (s : Supervisor) (w : Nat) :
    canEmit s w = true ↔ ∃ x, s.workers[w]? = some x ∧ x.closed = false := by
  unfold canEmit
  cases h : s.workers[w]? with
  | none => simp
  | some x => simp

theorem supervisorInv_initial : SupervisorInv Supervisor.initial := by
  constructor
  · intro i x h
    simp [Supervisor.initial] at h
  · intro i h
    simp [isLive, Supervisor.initial] at h

/-- A worker that can still emit is the newest one, in a state that satisfies
the invariant. -/
theorem canEmit_newest (s : Supervisor) (w : Nat) (hinv : SupervisorInv s)
    (hw : canEmit s w = true) : w + 1 = s.workers.length := by
  obtain ⟨x, hx, hc⟩ := (canEmit_iff s w).1 hw
  have hlt : w < s.workers.length := by
    rcases Nat.lt_or_ge w s.workers.length with h | h
    · exact h
    · rw [List.getElem?_eq_none h] at hx
      cases hx
  by_contra hne
  have : x.closed = true := hinv.1 w x hx (by omega)
  rw [hc] at this
  cases this

theorem supervisorInv_start (outcome : SpawnOutcome) (s : Supervisor) (hinv : SupervisorInv s)
    (hd : startPermitted s = true) : SupervisorInv (startPythonProcess outcome s) := by
  unfold startPythonProcess
  cases hp : s.pythonProcess with
  | some w => exact hinv
  | none =>
    have hall : ∀ x ∈ s.workers, x.closed = true := by
      simpa [startPermitted, hp] using hd
    have hclosed : ∀ (i : Nat) (x : Worker), s.workers[i]? = some x → x.closed = true :=
      fun _ x hx => hall x (List.getElem?_mem hx)
    cases outcome with
    | returns =>
      constructor
      · intro i x hx hlt
        simp only [List.length_append, List.length_singleton] at hlt
        rw [List.getElem?_append_left (by omega)] at hx
        exact hclosed i x hx
      · intro i hi
        obtain ⟨x, hx, _, _, hc⟩ := (isLive_iff _ i).1 hi
        simp only at hx ⊢
        rcases Nat.lt_or_ge i s.workers.length with h | h
        · rw [List.getElem?_append_left h] at hx
          rw [hclosed i x hx] at hc
          cases hc
        · rcases Nat.eq_or_lt_of_le h with h' | h'
          · rw [h']
          · rw [List.getElem?_eq_none (by simp; omega)] at hx
            cases hx
    | throws message =>
      constructor
      · intro i x hx _
        exact hclosed i x hx
      · intro i hi
        obtain ⟨x, hx, _, _, hc⟩ := (isLive_iff _ i).1 hi
        rw [hclosed i x hx] at hc
        cases hc

theorem supervisorInv_stop (s : Supervisor) (hinv : SupervisorInv s) :
    SupervisorInv (stopPythonProcess s) := by
  unfold stopPythonProcess
  cases hp : s.pythonProcess with
  | none => exact hinv
  | some w =>
    constructor
    · intro i x hx hlt
      simp only [length_updateWorker] at hlt
      simp only [getElem?_updateWorker] at hx
      by_cases hi : i = w
      · simp only [hi, if_true, Option.map_eq_some'] at hx
        obtain ⟨y, hy, hxy⟩ := hx
        have := hinv.1 w y hy (hi ▸ hlt)
        rw [← hxy]
        exact this
      · simp only [hi, if_false] at hx
        exact hinv.1 i x hx hlt
    · intro i hi
      exfalso
      obtain ⟨x, hx, hk, hf, hc⟩ := (isLive_iff _ i).1 hi
      simp only [getElem?_updateWorker] at hx
      by_cases hiw : i = w
      · simp only [hiw, if_true, Option.map_eq_some'] at hx
        obtain ⟨y, _, hxy⟩ := hx
        rw [← hxy] at hk
        cases hk
      · simp only [hiw, if_false] at hx
        have hlive : isLive s i = true := (isLive_iff s i).2 ⟨x, hx, hk, hf, hc⟩
        have := hinv.2 i hlive
        rw [hp, Option.some.injEq] at this
        exact hiw this.symm

/-- After the newest worker has been marked as failed or closed and the
handle cleared, no worker is live. -/
theorem supervisorInv_mark_newest (s : Supervisor) (data : Record) (w : Nat)
    (mark : Worker → Worker) (hinv : SupervisorInv s) (hw : canEmit s w = true)
    (hmark : ∀ x, (mark x).failed = true ∨ (mark x).closed = true) :
    SupervisorInv
      { currentCrowdData := data, pythonProcess := none,
        workers := updateWorker w mark s.workers } := by
  have hnew := canEmit_newest s w hinv hw
  constructor
  · intro i x hx hlt
    simp only [length_updateWorker] at hlt
    simp only [getElem?_updateWorker] at hx
    have hi : ¬ i = w := by omega
    simp only [hi, if_false] at hx
    exact hinv.1 i x hx hlt
  · intro i hi
    exfalso
    obtain ⟨x, hx, _, hf, hc⟩ := (isLive_iff _ i).1 hi
    simp only [getElem?_updateWorker] at hx
    by_cases hiw : i = w
    · simp only [hiw, if_true, Option.map_eq_some'] at hx
      obtain ⟨y, _, hxy⟩ := hx
      rcases hmark y with h | h
      · rw [hxy, hf] at h; cases h
      · rw [hxy, hc] at h; cases h
    · simp only [hiw, if_false] at hx
      have hlt : i < s.workers.length := by
        rcases Nat.lt_or_ge i s.workers.length with h | h
        · exact h
        · rw [List.getElem?_eq_none h] at hx
          cases hx
      have := hinv.1 i x hx (by omega)
      rw [hc] at this
      cases this

theorem supervisorInv_step (parse : String → Option JVal) (s t : Supervisor) (e : Event)
    (hinv : SupervisorInv s) (hd : respectsDiscipline s e = true)
    (hstep : s.step parse e = some t) : SupervisorInv t := by
  cases e with
  | start outcome =>
    simp only [Supervisor.step, Option.some.injEq] at hstep
    rw [← hstep]
    exact supervisorInv_start outcome s hinv hd
  | stop =>
    simp only [Supervisor.step, Option.some.injEq] at hstep
    rw [← hstep]
    exact supervisorInv_stop s hinv
  | stdout w data =>
    simp only [Supervisor.step] at hstep
    by_cases hw : canEmit s w = true
    · simp only [hw, if_true, onStdout] at hstep
      cases ho : onStdoutData parse s.currentCrowdData data with
      | error err => rw [ho] at hstep; cases hstep
      | ok p =>
        rw [ho] at hstep
        simp only [Option.some.injEq] at hstep
        rw [← hstep]
        exact hinv
    · simp [hw] at hstep
  | stderr w data =>
    simp only [Supervisor.step] at hstep
    by_cases hw : canEmit s w = true
    · simp only [hw, if_true, Option.some.injEq] at hstep
      rw [← hstep]
      exact hinv
    · simp [hw] at hstep
  | close w code =>
    simp only [Supervisor.step] at hstep
    by_cases hw : canEmit s w = true
    · simp only [hw, if_true, Option.some.injEq] at hstep
      rw [← hstep]
      exact supervisorInv_mark_newest s _ w _ hinv hw (fun x => Or.inr rfl)
    · simp [hw] at hstep
  | error w message =>
    simp only [Supervisor.step] at hstep
    by_cases hw : canEmit s w = true
    · simp only [hw, if_true, Option.some.injEq] at hstep
      rw [← hstep]
      exact supervisorInv_mark_newest s _ w _ hinv hw (fun x => Or.inl rfl)
    · simp [hw] at hstep

theorem supervisorInv_runDisciplined (parse : String → Option JVal) (evs : List Event)
    (s t : Supervisor) (hinv : SupervisorInv s)
    (hrun : s.runDisciplined parse evs = some t) : SupervisorInv t := by
  induction evs generalizing s with
  | nil =>
    simp only [Supervisor.runDisciplined, Option.some.injEq] at hrun
    rw [← hrun]
    exact hinv
  | cons e es ih =>
    simp only [Supervisor.runDisciplined] at hrun
    by_cases hd : respectsDiscipline s e = true
    · simp only [hd, if_true] at hrun
      cases hs : s.step parse e with
      | none => rw [hs] at hrun; cases hrun
      | some u =>
        rw [hs] at hrun
        exact ih u (supervisorInv_step parse s u e hinv hd hs) hrun
    · simp [hd] at hrun

theorem run_of_runDisciplined (parse : String → Option JVal) (evs : List Event)
    (s t : Supervisor) (hrun : s.runDisciplined parse evs = some t) :
    s.run parse evs = some t := by
  induction evs generalizing s with
  | nil => exact hrun
  | cons e es ih =>
    simp only [Supervisor.runDisciplined] at hrun
    by_cases hd : respectsDiscipline s e = true
    · simp only [hd, if_true] at hrun
      simp only [Supervisor.run]
      cases hs : s.step parse e with
      | none => rw [hs] at hrun; cases hrun
      | some u =>
        rw [hs] at hrun
        exact ih u hrun
    · simp [hd] at hrun

/-- C5, amended. In every state reached from the initial state by an
interleaving of `startPythonProcess()`, `stopPythonProcess()` and worker
events in which `startPythonProcess()` is called only while a handle is held
or once every worker created so far has emitted `close`, at most one worker
is live (created, not failed, not closed, not asked to terminate), and the
handle refers to that worker whenever there is one. -/
theorem at_most_one_live_worker_disciplined (parse : String → Option JVal)
    (evs : List Event) (s : Supervisor)
    (hrun : Supervisor.initial.runDisciplined parse evs = some s) :
    Supervisor.initial.run parse evs = some s ∧
      (∀ i j, isLive s i = true → isLive s j = true → i = j) ∧
      (∀ i, isLive s i = true → s.pythonProcess = some i) := by
  have hinv := supervisorInv_runDisciplined parse evs _ s supervisorInv_initial hrun
  refine ⟨run_of_runDisciplined parse evs _ s hrun, ?_, hinv.2⟩
  intro i j hi hj
  have h1 := hinv.2 i hi
  have h2 := hinv.2 j hj
  rw [h1, Option.some.injEq] at h2
  exact h2

/-- The witness of C5: start, a stdout chunk, stop, the `close` of the
stopped worker, and a restart, after which the second worker is the live one. -/
theorem at_most_one_live_worker_disciplined_witness :
    (Supervisor.initial.runDisciplined sampleParse
        [.start .returns, .stdout 0 "\x7b\"density\":\"Low\"\x7d\n", .stop, .close 0 none,
          .start .returns]).map (fun s => (s.pythonProcess, isLive s 0, isLive s 1)) =
      some (some 1, false, true) ∧
    (∀ i j,
      isLive ((Supervisor.initial.runDisciplined sampleParse
        [.start .returns, .stdout 0 "\x7b\"density\":\"Low\"\x7d\n", .stop, .close 0 none,
          .start .returns]).getD Supervisor.initial) i = true →
      isLive ((Supervisor.initial.runDisciplined sampleParse
        [.start .returns, .stdout 0 "\x7b\"density\":\"Low\"\x7d\n", .stop, .close 0 none,
          .start .returns]).getD Supervisor.initial) j = true → i = j) :=
  ⟨by rfl,
   (at_most_one_live_worker_disciplined sampleParse
      [.start .returns, .stdout 0 "\x7b\"density\":\"Low\"\x7d\n", .stop, .close 0 none,
        .start .returns] _ (by rfl)).2.1⟩

theorem lookupProp_starting (k : String) (cur : Record) (h : k ≠ "status") :
    lookupProp k (setProp "status" (.str "Starting") (spreadOnto [] (.obj cur))) =
      lookupProp k cur := by
  rw [lookupProp_setProp_ne _ _ _ _ (fun e => h e.symm), lookupProp_spread_fresh]

/-- C6. Spawn failure. (a) From a state without handle, when `spawn` throws
an error with a non-empty message inside `startPythonProcess()`, the status
becomes `"Spawn Error"`, the handle stays unset and no worker is created;
(b) when a created worker emits `error` with a non-empty message, the status
becomes `"Failed to start"` and the handle is cleared. In both cases the
`error` field holds that non-empty message and `density`, `count` and
`timestamp` (every key but `status` and `error`) keep their prior value. -/
theorem spawn_failure_recorded (parse : String → Option JVal) (s u : Supervisor) (w : Nat)
    (message : String) (hnone : s.pythonProcess = none) (hw : canEmit u w = true)
    (hmsg : message ≠ "") :
    ((startPythonProcess (.throws message) s).status = some (.str "Spawn Error") ∧
      (startPythonProcess (.throws message) s).pythonProcess = none ∧
      (startPythonProcess (.throws message) s).workers = s.workers ∧
      (∃ m, lookupProp "error" (startPythonProcess (.throws message) s).currentCrowdData =
          some (.str m) ∧ m ≠ "") ∧
      (∀ k, k ≠ "status" → k ≠ "error" →
        lookupProp k (startPythonProcess (.throws message) s).currentCrowdData =
          lookupProp k s.currentCrowdData)) ∧
    (∃ t, u.step parse (.error w message) = some t ∧
      t.status = some (.str "Failed to start") ∧
      t.pythonProcess = none ∧
      (∃ m, lookupProp "error" t.currentCrowdData = some (.str m) ∧ m ≠ "") ∧
      (∀ k, k ≠ "status" → k ≠ "error" →
        lookupProp k t.currentCrowdData = lookupProp k u.currentCrowdData)) := by
  constructor
  · unfold startPythonProcess
    rw [hnone]
    refine ⟨?_, rfl, rfl, ⟨message, ?_, hmsg⟩, ?_⟩
    · simp only [Supervisor.status]
      rw [lookupProp_setProp_ne _ _ _ _ (by decide), lookupProp_setProp_same]
    · simp only
      rw [lookupProp_setProp_same]
    · intro k hk1 hk2
      simp only
      rw [lookupProp_setProp_ne _ _ _ _ (fun e => hk2 e.symm),
        lookupProp_setProp_ne _ _ _ _ (fun e => hk1 e.symm), lookupProp_starting k _ hk1]
  · refine ⟨onError w message u, ?_, ?_, rfl, ⟨message, ?_, hmsg⟩, ?_⟩
    · simp [Supervisor.step, hw]
    · simp only [Supervisor.status, onError]
      rw [lookupProp_setProp_ne _ _ _ _ (by decide), lookupProp_setProp_same]
    · simp only [onError]
      rw [lookupProp_setProp_same]
    · intro k hk1 hk2
      simp only [onError]
      rw [lookupProp_setProp_ne _ _ _ _ (fun e => hk2 e.symm),
        lookupProp_setProp_ne _ _ _ _ (fun e => hk1 e.symm)]

/-- The witness of C6: `spawn` throws in the initial state; the first worker
emits `error` after a successful start. -/
theorem spawn_failure_recorded_witness :
    (startPythonProcess (.throws "spawn EAGAIN") Supervisor.initial).status =
        some (.str "Spawn Error") ∧
      (Supervisor.step sampleParse (startPythonProcess .returns Supervisor.initial)
          (.error 0 "spawn python3 ENOENT")).map
        (fun t => (t.status, t.pythonProcess, lookupProp "error" t.currentCrowdData,
          lookupProp "density" t.currentCrowdData)) =
        some (some (.str "Failed to start"), none, some (.str "spawn python3 ENOENT"),
          some (.str "Unknown")) :=
  ⟨(spawn_failure_recorded sampleParse Supervisor.initial
      (startPythonProcess .returns Supervisor.initial) 0 "spawn EAGAIN" rfl (by rfl)
      (by decide)).1.1, by rfl⟩

/-- C9. `startPythonProcess()` is idempotent while a worker handle is held:
in every state `s` with a handle it creates no worker and leaves the handle
and the whole status record unchanged; hence, from any state `t`, a second
call right after a call whose spawn succeeded changes nothing, and exactly
the one handle of the first call is held. -/
theorem start_idempotent_while_handle_held (outcome : SpawnOutcome) (s t : Supervisor)
    (hs : s.pythonProcess.isSome = true) :
    startPythonProcess outcome s = s ∧
      startPythonProcess outcome (startPythonProcess .returns t) =
        startPythonProcess .returns t ∧
      (startPythonProcess .returns t).pythonProcess.isSome = true := by
  have hheld : ∀ (o : SpawnOutcome) (v : Supervisor),
      v.pythonProcess.isSome = true → startPythonProcess o v = v := by
    intro o v hv
    unfold startPythonProcess
    cases hp : v.pythonProcess with
    | none => rw [hp] at hv; cases hv
    | some w => rfl
  have hsome : (startPythonProcess .returns t).pythonProcess.isSome = true := by
    unfold startPythonProcess
    cases hp : t.pythonProcess with
    | none => rfl
    | some w => simp [hp]
  exact ⟨hheld outcome s hs, hheld outcome _ hsome, hsome⟩

/-- The witness of C9: a second start after the first start of the initial
state, whatever `spawn` would do. -/
theorem start_idempotent_while_handle_held_witness :
    (startPythonProcess .returns Supervisor.initial).pythonProcess.isSome = true ∧
      startPythonProcess (.throws "spawn EAGAIN")
          (startPythonProcess .returns Supervisor.initial) =
        startPythonProcess .returns Supervisor.initial :=
  ⟨by rfl,
   (start_idempotent_while_handle_held (.throws "spawn EAGAIN")
    (startPythonProcess .returns Supervisor.initial) Supervisor.initial (by rfl)).1⟩

/-- C10. `stopPythonProcess()` with no worker handle is a no-op: in every
state `s` without handle, the status record, the unset handle and the
workers (so no termination request is sent) are exactly as before; hence,
from a state `t` with a handle, a second stop after a first changes nothing
and leaves the status `"Stopped"`. -/
theorem stop_without_handle_noop (s t : Supervisor) (hs : s.pythonProcess = none)
    (ht : t.pythonProcess.isSome = true) :
    stopPythonProcess s = s ∧
      stopPythonProcess (stopPythonProcess t) = stopPythonProcess t ∧
      (stopPythonProcess (stopPythonProcess t)).status = some (.str "Stopped") := by
  have hnone : ∀ v : Supervisor, v.pythonProcess = none → stopPythonProcess v = v := by
    intro v hv
    unfold stopPythonProcess
    rw [hv]
  have hcleared : (stopPythonProcess t).pythonProcess = none := by
    unfold stopPythonProcess
    cases hp : t.pythonProcess with
    | none => simp [hp]
    | some w => rfl
  refine ⟨hnone s hs, hnone _ hcleared, ?_⟩
  rw [hnone _ hcleared]
  unfold stopPythonProcess
  cases hp : t.pythonProcess with
  | none => rw [hp] at ht; cases ht
  | some w =>
    simp only [Supervisor.status]
    rw [lookupProp_setProp_same]

/-- The witness of C10: a stop in the initial state, which holds no handle,
and two stops after a start. -/
theorem stop_without_handle_noop_witness :
    stopPythonProcess Supervisor.initial = Supervisor.initial ∧
      (stopPythonProcess (stopPythonProcess
        (startPythonProcess .returns Supervisor.initial))).status = some (.str "Stopped") :=
  ⟨(stop_without_handle_noop Supervisor.initial
      (startPythonProcess .returns Supervisor.initial) rfl (by rfl)).1,
   (stop_without_handle_noop Supervisor.initial
      (startPythonProcess .returns Supervisor.initial) rfl (by rfl)).2.2⟩

theorem canEmit_stopPythonProcess (s : Supervisor) (w : Nat) :
    canEmit (stopPythonProcess s) w = canEmit s w := by
  unfold stopPythonProcess
  cases hp : s.pythonProcess with
  | none => rfl
  | some h =>
    unfold canEmit
    simp only [getElem?_updateWorker]
    by_cases hw : w = h
    · simp only [hw, if_true]
      cases s.workers[h]? <;> rfl
    · simp only [hw, if_false]

/-- C4, amended. In every state in which a worker handle is held, after
`stopPythonProcess()` the status is `"Stopped"`, the handle is unset and the
stopped worker can still emit its events; the status then stays `"Stopped"`
under further `stopPythonProcess()` calls, under stderr data and under stdout
chunks that carry no accepted update, as long as `startPythonProcess()` is
not called again. Every handler writes the status of its own event whichever
worker emits it: a stdout chunk with an accepted update sets `"Running"`,
`close` sets the exit-code status, and `error` sets `"Failed to start"`. -/
theorem stopped_until_next_status_event (parse : String → Option JVal) (s : Supervisor)
    (h : Nat) (hs : s.pythonProcess = some h) :
    (stopPythonProcess s).status = some (.str "Stopped") ∧
    (stopPythonProcess s).pythonProcess = none ∧
    canEmit (stopPythonProcess s) h = canEmit s h ∧
    stopPythonProcess (stopPythonProcess s) = stopPythonProcess s ∧
    (∀ (w : Nat) (data : String) (u : Supervisor),
      (stopPythonProcess s).step parse (.stderr w data) = some u →
      u.status = some (.str "Stopped") ∧ u.pythonProcess = none) ∧
    (∀ (w : Nat) (data : String), canEmit (stopPythonProcess s) w = true →
      ∃ u, (stopPythonProcess s).step parse (.stdout w data) = some u ∧
        u.pythonProcess = none ∧
        u.status =
          if ((jsonStrings data).filterMap (acceptedUpdate parse)).isEmpty
          then some (.str "Stopped") else some (.str "Running")) ∧
    (∀ (w : Nat) (code : Option Int), canEmit (stopPythonProcess s) w = true →
      ∃ u, (stopPythonProcess s).step parse (.close w code) = some u ∧
        u.pythonProcess = none ∧
        u.status = some (.str ("Exited (Code: " ++ exitCodeText code ++ ")"))) ∧
    (∀ (w : Nat) (message : String), canEmit (stopPythonProcess s) w = true →
      ∃ u, (stopPythonProcess s).step parse (.error w message) = some u ∧
        u.pythonProcess = none ∧
        u.status = some (.str "Failed to start")) := by
  have hstatus : (stopPythonProcess s).status = some (.str "Stopped") := by
    unfold stopPythonProcess
    rw [hs]
    simp only [Supervisor.status]
    rw [lookupProp_setProp_same]
  have hnone : (stopPythonProcess s).pythonProcess = none := by
    unfold stopPythonProcess
    rw [hs]
  have hagain : stopPythonProcess (stopPythonProcess s) = stopPythonProcess s := by
    generalize stopPythonProcess s = t at hnone
    unfold stopPythonProcess
    rw [hnone]
  refine ⟨hstatus, hnone, canEmit_stopPythonProcess s h, hagain, ?_, ?_, ?_, ?_⟩
  · intro w data u hu
    simp only [Supervisor.step] at hu
    by_cases hw : canEmit (stopPythonProcess s) w = true
    · simp only [hw, if_true, Option.some.injEq] at hu
      rw [← hu]
      exact ⟨hstatus, hnone⟩
    · simp [hw] at hu
  · intro w data hw
    have hlog := onStdoutData_log parse (stopPythonProcess s).currentCrowdData data
    refine ⟨{ stopPythonProcess s with
        currentCrowdData :=
          ((jsonStrings data).filterMap (acceptedUpdate parse)).foldl mergeRunning
            (stopPythonProcess s).currentCrowdData }, ?_, hnone, ?_⟩
    · simp only [Supervisor.step, hw, if_true, onStdout, hlog]
    · simp only [Supervisor.status]
      cases hl : (jsonStrings data).filterMap (acceptedUpdate parse) with
      | nil =>
        simp only [List.foldl_nil, List.isEmpty_nil, if_true]
        exact hstatus
      | cons j rest =>
        simp only [List.isEmpty_cons, Bool.false_eq_true, if_false]
        exact status_foldl_mergeRunning _ (j :: rest) (by simp)
  · intro w code hw
    refine ⟨onClose w code (stopPythonProcess s), ?_, rfl, ?_⟩
    · simp only [Supervisor.step, hw, if_true]
    · simp only [Supervisor.status, onClose]
      rw [lookupProp_setProp_same]
  · intro w message hw
    refine ⟨onError w message (stopPythonProcess s), ?_, rfl, ?_⟩
    · simp only [Supervisor.step, hw, if_true]
    · simp only [Supervisor.status, onError]
      rw [lookupProp_setProp_ne _ _ _ _ (by decide), lookupProp_setProp_same]

/-- The witness of C4: the state after the first start, which holds the
handle of worker 0; after the stop, a stdout chunk without accepted update
leaves the status `"Stopped"`. -/
theorem stopped_until_next_status_event_witness :
    (startPythonProcess .returns Supervisor.initial).pythonProcess = some 0 ∧
      (stopPythonProcess (startPythonProcess .returns Supervisor.initial)).status =
        some (.str "Stopped") ∧
      (Supervisor.run sampleParse Supervisor.initial
          [.start .returns, .stop, .stdout 0 "not-json\n", .stop]).map
        (fun s => (s.status, s.pythonProcess)) = some (some (.str "Stopped"), none) :=
  ⟨rfl,
   (stopped_until_next_status_event sampleParse
      (startPythonProcess .returns Supervisor.initial) 0 rfl).1,
   by rfl⟩

/-! ## Claims on the shutdown coordinator -/

theorem precededBy_nil (a b : Effect) : PrecededBy a b [] := by
  intro pre post h
  cases pre <;> cases h

theorem precededBy_concat (a b e : Effect) (t : List Effect) (h : PrecededBy a b t)
    (he : e = b → a ∈ t) : PrecededBy a b (t ++ [e]) := by
  intro pre post hsplit
  rcases List.eq_nil_or_concat post with hp | ⟨post', x, hp⟩
  · subst hp
    have h1 : t ++ [e] = pre ++ [b] := hsplit
    have h2 := List.append_inj' h1 rfl
    have h3 : e = b := by
      have := h2.2
      simpa using this
    rw [← h2.1]
    exact he h3
  · subst hp
    have h1 : t ++ [e] = (pre ++ b :: post') ++ [x] := by
      rw [hsplit]; simp
    have h2 := List.append_inj' h1 rfl
    exact h pre post' h2.1

theorem precededBy_append_two (a b e1 e2 : Effect) (t : List Effect) (h : PrecededBy a b t)
    (h1 : e1 = b → a ∈ t) (h2 : e2 = b → a ∈ t ++ [e1]) :
    PrecededBy a b (t ++ [e1, e2]) := by
  have : t ++ [e1, e2] = (t ++ [e1]) ++ [e2] := by simp
  rw [this]
  exact precededBy_concat a b e2 _ (precededBy_concat a b e1 t h h1) h2

theorem shutdownInv_initial (sup : Supervisor) : ShutdownInv (Proc.initial sup) := by
  refine ⟨?_, ?_, precededBy_nil _ _, precededBy_nil _ _, precededBy_nil _ _⟩
  · intro h; simp [Proc.initial] at h
  · intro h; simp [Proc.initial] at h

theorem shutdownInv_step (parse : String → Option JVal) (p q : Proc) (e : ProcEvent)
    (hinv : ShutdownInv p) (hstep : p.step parse e = some q) : ShutdownInv q := by
  obtain ⟨hl, hs, h1, h2, h3⟩ := hinv
  unfold Proc.step at hstep
  cases hx : p.exited with
  | some c => rw [hx] at hstep; cases hstep
  | none =>
    rw [hx] at hstep
    cases e with
    | signal sig =>
      simp only [Option.some.injEq] at hstep
      rw [← hstep]
      refine ⟨fun _ => by simp [gracefulShutdown], ?_, ?_, ?_, ?_⟩
      · intro h
        have := hs h
        simp [gracefulShutdown, this]
      · exact precededBy_append_two _ _ _ _ _ h1 (fun h => by cases h) (fun _ => by simp)
      · exact precededBy_append_two _ _ _ _ _ h2 (fun h => by cases h) (fun h => by cases h)
      · exact precededBy_append_two _ _ _ _ _ h3 (fun h => by cases h) (fun h => by cases h)
    | listenerClosed =>
      by_cases hc : 0 < p.listenerCallbacks
      · simp only [hc, if_true, Option.some.injEq] at hstep
        rw [← hstep]
        refine ⟨?_, fun _ => by simp [onListenerClosed], ?_, ?_, ?_⟩
        · intro _
          have := hl hc
          simp [onListenerClosed, this]
        · exact precededBy_concat _ _ _ _ h1 (fun h => by cases h)
        · exact precededBy_concat _ _ _ _ h2 (fun _ => hl hc)
        · exact precededBy_concat _ _ _ _ h3 (fun h => by cases h)
      · simp [hc] at hstep
    | storeClosed err =>
      by_cases hc : 0 < p.storeCallbacks
      · simp only [hc, if_true, Option.some.injEq] at hstep
        rw [← hstep]
        refine ⟨?_, ?_, ?_, ?_, ?_⟩
        · intro h
          have := hl h
          simp [onStoreClosed, this]
        · intro _
          have := hs hc
          simp [onStoreClosed, this]
        · exact precededBy_concat _ _ _ _ h1 (fun h => by cases h)
        · exact precededBy_concat _ _ _ _ h2 (fun h => by cases h)
        · exact precededBy_concat _ _ _ _ h3 (fun _ => hs hc)
      · simp [hc] at hstep
    | timeout =>
      by_cases hc : p.timers ≠ []
      · rw [if_pos hc, Option.some.injEq] at hstep
        rw [← hstep]
        refine ⟨?_, ?_, ?_, ?_, ?_⟩
        · intro h
          have := hl h
          simp [onShutdownTimeout, this]
        · intro h
          have := hs h
          simp [onShutdownTimeout, this]
        · exact precededBy_concat _ _ _ _ h1 (fun h => by cases h)
        · exact precededBy_concat _ _ _ _ h2 (fun h => by cases h)
        · exact precededBy_concat _ _ _ _ h3 (fun h => by cases h)
      · simp [hc] at hstep
    | supervisor ev =>
      cases hsv : p.sup.step parse ev with
      | none => simp [hsv] at hstep
      | some t =>
        simp only [hsv, Option.some.injEq] at hstep
        rw [← hstep]
        exact ⟨hl, hs, h1, h2, h3⟩

theorem shutdownInv_run (parse : String → Option JVal) (evs : List ProcEvent) (p q : Proc)
    (hinv : ShutdownInv p) (hrun : p.run parse evs = some q) : ShutdownInv q := by
  induction evs generalizing p with
  | nil =>
    simp only [Proc.run, Option.some.injEq] at hrun
    rw [← hrun]
    exact hinv
  | cons e es ih =>
    simp only [Proc.run] at hrun
    cases hs : p.step parse e with
    | none => rw [hs] at hrun; cases hrun
    | some r =>
      rw [hs] at hrun
      exact ih r (shutdownInv_step parse p r e hinv hs) hrun

/-- C7. Shutdown order. In every run of the process from its initial state,
every `server.close` call comes after a `stopPythonProcess()` call, every
`db.end` call comes after a `server.close` call and is made by a callback
given to `server.close`, and every `process.exit(0)` comes after a `db.end`
call and is made by a callback given to `db.end`; for either signal, when
the listener close and the store close complete, the calls made are exactly
stop worker, close listener, close store, exit 0. -/
theorem shutdown_order (parse : String → Option JVal) (sup : Supervisor)
    (evs : List ProcEvent) (q : Proc) (sig : Signal) (err : Option String)
    (hrun : (Proc.initial sup).run parse evs = some q) :
    (PrecededBy .stopWorker .closeListener q.trace ∧
      PrecededBy .closeListener .closeStore q.trace ∧
      PrecededBy .closeStore (.exit 0) q.trace) ∧
    (∀ (p r : Proc) (e : ProcEvent), p.step parse e = some r →
      (Effect.closeStore ∈ r.trace → Effect.closeStore ∉ p.trace → e = .listenerClosed) ∧
      (Effect.exit 0 ∈ r.trace → Effect.exit 0 ∉ p.trace → ∃ x, e = .storeClosed x)) ∧
    (∃ r, (Proc.initial sup).run parse [.signal sig, .listenerClosed, .storeClosed err] =
        some r ∧
      r.trace = [.stopWorker, .closeListener, .closeStore, .exit 0] ∧
      r.exited = some 0) := by
  have hinv := shutdownInv_run parse evs _ q (shutdownInv_initial sup) hrun
  refine ⟨⟨hinv.2.2.1, hinv.2.2.2.1, hinv.2.2.2.2⟩, ?_, ⟨_, rfl, rfl, rfl⟩⟩
  intro p r e hstep
  unfold Proc.step at hstep
  cases hx : p.exited with
  | some c => rw [hx] at hstep; cases hstep
  | none =>
    rw [hx] at hstep
    cases e with
    | signal s =>
      simp only [Option.some.injEq] at hstep
      rw [← hstep]
      constructor
      · intro h hn; simp [gracefulShutdown, hn] at h
      · intro h hn; simp [gracefulShutdown, hn] at h
    | listenerClosed =>
      by_cases hc : 0 < p.listenerCallbacks
      · simp only [hc, if_true, Option.some.injEq] at hstep
        rw [← hstep]
        constructor
        · intro _ _; rfl
        · intro h hn; simp [onListenerClosed, hn] at h
      · simp [hc] at hstep
    | storeClosed x =>
      by_cases hc : 0 < p.storeCallbacks
      · simp only [hc, if_true, Option.some.injEq] at hstep
        rw [← hstep]
        constructor
        · intro h hn; simp [onStoreClosed, hn] at h
        · intro _ _; exact ⟨x, rfl⟩
      · simp [hc] at hstep
    | timeout =>
      by_cases hc : p.timers ≠ []
      · rw [if_pos hc, Option.some.injEq] at hstep
        rw [← hstep]
        constructor
        · intro h hn; simp [onShutdownTimeout, hn] at h
        · intro h hn; simp [onShutdownTimeout, hn] at h
      · simp [hc] at hstep
    | supervisor ev =>
      cases hsv : p.sup.step parse ev with
      | none => simp [hsv] at hstep
      | some t =>
        simp only [hsv, Option.some.injEq] at hstep
        rw [← hstep]
        constructor
        · intro h hn; exact absurd h hn
        · intro h hn; exact absurd h hn

/-- The witness of C7: the run of SIGINT in which the listener close
completes, from the initial state. -/
theorem shutdown_order_witness :
    (Proc.initial Supervisor.initial).run sampleParse [.signal .SIGINT, .listenerClosed] =
        some (onListenerClosed (gracefulShutdown .SIGINT (Proc.initial Supervisor.initial))) ∧
      PrecededBy .closeListener .closeStore
        (onListenerClosed (gracefulShutdown .SIGINT (Proc.initial Supervisor.initial))).trace :=
  ⟨by rfl,
   (shutdown_order sampleParse Supervisor.initial [.signal .SIGINT, .listenerClosed] _
      .SIGINT none (by rfl)).1.2.1⟩

theorem watchdogInv_step (parse : String → Option JVal) (p q : Proc) (e : ProcEvent)
    (hinv : WatchdogInv p) (hstep : p.step parse e = some q) : WatchdogInv q := by
  unfold Proc.step at hstep
  cases hx : p.exited with
  | some c => rw [hx] at hstep; cases hstep
  | none =>
    rw [hx] at hstep
    obtain ⟨ht, hn⟩ := hinv hx
    cases e with
    | signal sig =>
      simp only [Option.some.injEq] at hstep
      rw [← hstep]
      intro _
      refine ⟨by simp [gracefulShutdown], ?_⟩
      intro code hmem
      simp [gracefulShutdown, hn code] at hmem
    | listenerClosed =>
      by_cases hc : 0 < p.listenerCallbacks
      · simp only [hc, if_true, Option.some.injEq] at hstep
        rw [← hstep]
        intro _
        refine ⟨ht, ?_⟩
        intro code hmem
        simp [onListenerClosed, hn code] at hmem
      · simp [hc] at hstep
    | storeClosed err =>
      by_cases hc : 0 < p.storeCallbacks
      · simp only [hc, if_true, Option.some.injEq] at hstep
        rw [← hstep]
        intro h
        simp [onStoreClosed] at h
      · simp [hc] at hstep
    | timeout =>
      by_cases hc : p.timers ≠ []
      · rw [if_pos hc, Option.some.injEq] at hstep
        rw [← hstep]
        intro h
        simp [onShutdownTimeout] at h
      · simp [hc] at hstep
    | supervisor ev =>
      cases hsv : p.sup.step parse ev with
      | none => simp [hsv] at hstep
      | some t =>
        simp only [hsv, Option.some.injEq] at hstep
        rw [← hstep]
        intro _
        exact ⟨ht, hn⟩

theorem watchdogInv_run (parse : String → Option JVal) (evs : List ProcEvent) (p q : Proc)
    (hinv : WatchdogInv p) (hrun : p.run parse evs = some q) : WatchdogInv q := by
  induction evs generalizing p with
  | nil =>
    simp only [Proc.run, Option.some.injEq] at hrun
    rw [← hrun]
    exact hinv
  | cons e es ih =>
    simp only [Proc.run] at hrun
    cases hs : p.step parse e with
    | none => rw [hs] at hrun; cases hrun
    | some r =>
      rw [hs] at hrun
      exact ih r (watchdogInv_step parse p r e hinv hs) hrun

theorem step_none_of_exited (parse : String → Option JVal) (p : Proc) (c : Nat)
    (h : p.exited = some c) (e : ProcEvent) : p.step parse e = none := by
  unfold Proc.step
  rw [h]

/-- C8. Shutdown watchdog. `gracefulShutdown` arms a timer of 10000 ms; in
every run after the signal in which the process has not exited when the
timer fires (the listener close or the store close has not completed), the
timer callback exits with code 1, after which no event of the process occurs
any more: the calls made stay the calls made so far followed by exit 1, so
a `db.end` not yet called is never called and `process.exit(0)` is never
called. -/
theorem shutdown_watchdog (parse : String → Option JVal) (sup : Supervisor) (sig : Signal)
    (evs : List ProcEvent) (p : Proc)
    (hrun : (Proc.initial sup).run parse (.signal sig :: evs) = some p)
    (hpending : p.exited = none) :
    (gracefulShutdown sig (Proc.initial sup)).timers = [10000] ∧
    ∃ q, p.step parse .timeout = some q ∧
      q.exited = some 1 ∧
      q.trace = p.trace ++ [.exit 1] ∧
      (∀ e, q.step parse e = none) ∧
      (∀ later r, q.run parse later = some r → later = [] ∧ r.trace = q.trace) ∧
      (Effect.closeStore ∉ p.trace → Effect.closeStore ∉ q.trace) ∧
      Effect.exit 0 ∉ q.trace := by
  have hbase : WatchdogInv (gracefulShutdown sig (Proc.initial sup)) := by
    intro _
    refine ⟨by simp [gracefulShutdown], ?_⟩
    intro code hmem
    simp [gracefulShutdown, Proc.initial] at hmem
  have hrun' : (gracefulShutdown sig (Proc.initial sup)).run parse evs = some p := hrun
  obtain ⟨ht, hn⟩ := watchdogInv_run parse evs _ p hbase hrun' hpending
  have hstep : p.step parse .timeout = some (onShutdownTimeout p) := by
    unfold Proc.step
    rw [hpending]
    simp only
    rw [if_pos ht]
  have hdead : ∀ e, (onShutdownTimeout p).step parse e = none :=
    step_none_of_exited parse _ 1 rfl
  refine ⟨rfl, onShutdownTimeout p, hstep, rfl, rfl, hdead, ?_, ?_, ?_⟩
  · intro later r hr
    cases later with
    | nil =>
      simp only [Proc.run, Option.some.injEq] at hr
      exact ⟨rfl, by rw [hr]⟩
    | cons e es =>
      simp only [Proc.run, hdead e] at hr
      cases hr
  · intro h hmem
    simp [onShutdownTimeout, h] at hmem
  · intro hmem
    simp [onShutdownTimeout, hn 0] at hmem

/-- The witness of C8: after SIGTERM the listener close completes, the store
close does not, and the timer fires. -/
theorem shutdown_watchdog_witness :
    ((Proc.initial Supervisor.initial).run sampleParse
        [.signal .SIGTERM, .listenerClosed, .timeout]).map (fun q => (q.trace, q.exited)) =
      some ([.stopWorker, .closeListener, .closeStore, .exit 1], some 1) ∧
    (gracefulShutdown .SIGTERM (Proc.initial Supervisor.initial)).timers = [10000] :=
  ⟨by rfl,
   (shutdown_watchdog sampleParse Supervisor.initial .SIGTERM [.listenerClosed]
      (onListenerClosed (gracefulShutdown .SIGTERM (Proc.initial Supervisor.initial)))
      (by rfl) (by rfl)).1⟩

end TransitX
